import Mathlib

/-!
Verification of the ZE-SilentSync endpoint agent (src/agent/src/main.rs)
against its natural-language specification.

The Rust source is shallowly embedded below.  Strings are modelled as Lean
`String`s (lists of characters); the agent only ever inspects ASCII
characters ('/', '?', '"', '.', '_', '-', ' ', ASCII upper case letters),
for which Rust's byte-indexed `str` operations and the character-list model
coincide.  Rust's `char::is_uppercase` / `char::is_whitespace` /
`str::to_lowercase` are modelled by Lean's ASCII `Char.isUpper` /
`Char.isWhitespace` and a character-wise `Char.toLower` map, which agree
with Rust on the ASCII range.
Machine integers (`u64`, exit codes) are modelled as `Nat` / `Int`
with explicit `% 2 ^ 64` where wrap-around semantics matter.  Fallible
operations (download, spawn) are modelled with `Except` / `Option`
parameters supplied by the environment.
-/

/-- Splits a list of characters at every occurrence of `sep`, keeping empty
pieces, exactly like Rust's `str::split(sep)`: the result is always
non-empty, and `sep` occurs in no piece. -/
def splitChar (sep : Char) : List Char → List (List Char)
  | [] => [[]]
  | c :: rest =>
    if c = sep then [] :: splitChar sep rest
    else
      match splitChar sep rest with
      | [] => [[c]]
      | h :: t => (c :: h) :: t

/-- Models `std::path::Path::file_name` for Unix-style paths ('/' is the
separator, as on the agent's Linux target): the last non-empty, non-"."
component, or `none` when there is none or it is "..".  The argument this
program applies it to never contains '/' at all. -/
def rustFileName (p : List Char) : Option (List Char) :=
  match ((splitChar '/' p).filter (fun c => decide (c ≠ [] ∧ c ≠ ['.']))).getLast? with
  | some c => if c = ['.', '.'] then none else some c
  | none => none

/-- Last '/'-separated segment of the URL: `task.download_url.split('/').last()`
with the `unwrap_or("installer.exe")` fallback (main.rs line 265). -/
def raw_name_of (url : String) : List Char :=
  (splitChar '/' url.data).getLastD ("installer.exe".data)

/-- The segment truncated at the first '?': `raw_name.split('?').next()` with
the `unwrap_or("installer.exe")` fallback (main.rs line 266). -/
def base_name_of (url : String) : List Char :=
  (splitChar '?' (raw_name_of url)).headD ("installer.exe".data)

/-- Embeds the filename derivation of `process_task` (main.rs lines 263-275):
last '/'-separated segment of the URL, truncated at the first '?', then the
filename component of the result, with `"installer.exe"` as the fallback when
`Path::file_name` yields nothing. -/
def sanitized_file_name (url : String) : String :=
  match rustFileName (base_name_of url) with
  | some f => ⟨f⟩
  | none => "installer.exe"

theorem splitChar_ne_nil (sep : Char) (s : List Char) : splitChar sep s ≠ [] := by
  cases s with
  | nil => simp [splitChar]
  | cons c rest =>
    simp only [splitChar]
    split
    · simp
    · split <;> simp

theorem sep_not_mem_of_mem_splitChar {sep : Char} {s : List Char} {part : List Char}
    (h : part ∈ splitChar sep s) : sep ∉ part := by
  induction s generalizing part with
  | nil =>
    simp [splitChar] at h
    simp [h]
  | cons c rest ih =>
    simp only [splitChar] at h
    by_cases hc : c = sep
    · simp [hc] at h
      rcases h with h | h
      · simp [h]
      · exact ih h
    · simp only [if_neg hc] at h
      cases hsp : splitChar sep rest with
      | nil => exact absurd hsp (splitChar_ne_nil sep rest)
      | cons hd tl =>
        rw [hsp] at h
        rcases List.mem_cons.mp h with h | h
        · subst h
          intro hmem
          rcases List.mem_cons.mp hmem with h | h
          · exact hc h.symm
          · exact ih (hsp ▸ List.mem_cons_self hd tl) h
        · exact ih (hsp ▸ List.mem_cons_of_mem hd h)

theorem mem_of_mem_splitChar {sep : Char} {s : List Char} {part : List Char}
    (h : part ∈ splitChar sep s) : ∀ c ∈ part, c ∈ s := by
  induction s generalizing part with
  | nil =>
    simp [splitChar] at h
    simp [h]
  | cons a rest ih =>
    simp only [splitChar] at h
    by_cases ha : a = sep
    · simp [ha] at h
      rcases h with h | h
      · simp [h]
      · intro c hc
        exact List.mem_cons_of_mem a (ih h c hc)
    · simp only [if_neg ha] at h
      cases hsp : splitChar sep rest with
      | nil => exact absurd hsp (splitChar_ne_nil sep rest)
      | cons hd tl =>
        rw [hsp] at h
        rcases List.mem_cons.mp h with h | h
        · subst h
          intro c hc
          rcases List.mem_cons.mp hc with h | h
          · simp [h]
          · exact List.mem_cons_of_mem a (ih (hsp ▸ List.mem_cons_self hd tl) c h)
        · intro c hc
          exact List.mem_cons_of_mem a (ih (hsp ▸ List.mem_cons_of_mem hd h) c hc)

theorem getLastD_mem_of_ne_nil {α : Type} {l : List α} (d : α) (h : l ≠ []) :
    l.getLastD d ∈ l := by
  cases l with
  | nil => exact absurd rfl h
  | cons a as =>
    rw [List.getLastD_eq_getLast?, List.getLast?_eq_getLast (a :: as) (by simp)]
    simp [List.getLast_mem]

theorem headD_mem_of_ne_nil {α : Type} {l : List α} (d : α) (h : l ≠ []) :
    l.headD d ∈ l := by
  cases l with
  | nil => exact absurd rfl h
  | cons a as => simp

theorem getLast?_mem_of_eq_some {α : Type} {l : List α} {a : α}
    (h : l.getLast? = some a) : a ∈ l := by
  induction l with
  | nil => simp at h
  | cons b bs ih =>
    cases bs with
    | nil => simp at h; simp [h]
    | cons c cs =>
      rw [List.getLast?_cons_cons] at h
      exact List.mem_cons_of_mem b (ih h)

/-- ASCII lower-casing over the character list, modelling Rust's
`str::to_lowercase` on the ASCII range (kernel-reducible, unlike
`String.toLower`). -/
def strToLower (s : String) : String := ⟨s.data.map Char.toLower⟩

/-- Rust's `str::ends_with` on character lists (byte suffix and character
suffix coincide for UTF-8). -/
def strEndsWith (s suf : String) : Bool :=
  decide (s.data.drop (s.data.length - suf.data.length) = suf.data)

/-- The fixed stop-word list of `extract_keywords` (main.rs line 219). -/
def stop_words : List String :=
  ["standalone", "silent", "setup", "installer", "install", "x64", "x86", "win", "windows"]

/-- One step of the tokenizing walk of `extract_keywords` (main.rs lines
225-239): the state is (emitted words, accumulated current word).  Delimiters
flush the current word lowercased; an upper-case character with a non-empty
current word flushes it and starts a new word with that character. -/
def keyword_step (st : List String × String) (c : Char) : List String × String :=
  if c = '_' ∨ c = '-' ∨ c = ' ' ∨ c = '.' then
    if st.2 ≠ "" then (st.1 ++ [strToLower st.2], "") else st
  else if c.isUpper ∧ st.2 ≠ "" then
    (st.1 ++ [strToLower st.2], String.singleton c)
  else
    (st.1, st.2.push c)

/-- Embeds `extract_keywords` (main.rs lines 217-248): tokenize at
underscores, dashes, spaces, dots and camel-case boundaries, lowercase each
word, flush the trailing word, then drop words shorter than 3 characters and
stop words. -/
def extract_keywords (name : String) : List String :=
  let fin := name.data.foldl keyword_step ([], "")
  let words := if fin.2 ≠ "" then fin.1 ++ [strToLower fin.2] else fin.1
  words.filter (fun w => decide (3 ≤ w.length) && !(stop_words.contains w))

/-- Claim C5: keyword extraction on the spec's example, plus: every produced
keyword has length at least 3 and is not a stop word. -/
theorem claim5_keyword_extraction :
    extract_keywords "BraveBrowserStandaloneSilentNightlySetup" =
      ["brave", "browser", "nightly"] ∧
    ∀ name w, w ∈ extract_keywords name →
      3 ≤ w.length ∧ stop_words.contains w = false := by
  refine ⟨by decide, fun name w hw => ?_⟩
  unfold extract_keywords at hw
  have h := (List.mem_filter.mp hw).2
  rw [Bool.and_eq_true, Bool.not_eq_true'] at h
  exact ⟨of_decide_eq_true h.1, h.2⟩

theorem rustFileName_spec {p f : List Char} (h : rustFileName p = some f) :
    f ≠ [] ∧ f ≠ ['.', '.'] ∧ '/' ∉ f ∧ ∀ c ∈ f, c ∈ p := by
  unfold rustFileName at h
  cases hlast : ((splitChar '/' p).filter (fun c => decide (c ≠ [] ∧ c ≠ ['.']))).getLast? with
  | none => rw [hlast] at h; simp at h
  | some c =>
    rw [hlast] at h
    by_cases hdd : c = ['.', '.']
    · simp [hdd] at h
    · simp [hdd] at h
      subst h
      have hmem := getLast?_mem_of_eq_some hlast
      have hfilter := List.mem_filter.mp hmem
      have hprops := of_decide_eq_true hfilter.2
      exact ⟨hprops.1, hdd, sep_not_mem_of_mem_splitChar hfilter.1,
        mem_of_mem_splitChar hfilter.1⟩

theorem qmark_not_mem_base_name (url : String) : '?' ∉ base_name_of url := by
  have hmem : base_name_of url ∈ splitChar '?' (raw_name_of url) :=
    headD_mem_of_ne_nil _ (splitChar_ne_nil _ _)
  exact sep_not_mem_of_mem_splitChar hmem

/-- Claim C1: the locally materialized filename is the final '/'-separated URL
segment, truncated at the first '?', reduced to its filename component, with a
fixed default when empty; it never contains a path separator, is never the
".." segment, never contains a query string, and on the adversarial example
`https://x/../../evil.exe?token=1&x=2` it is exactly `evil.exe`. -/
theorem claim1_filename_sanitization :
    sanitized_file_name "https://x/../../evil.exe?token=1&x=2" = "evil.exe" ∧
    ∀ url : String, '/' ∉ (sanitized_file_name url).data ∧
      '?' ∉ (sanitized_file_name url).data ∧
      sanitized_file_name url ≠ ".." ∧ sanitized_file_name url ≠ "" := by
  refine ⟨by decide, fun url => ?_⟩
  unfold sanitized_file_name
  cases hfn : rustFileName (base_name_of url) with
  | none => refine ⟨by decide, by decide, by decide, by decide⟩
  | some f =>
    obtain ⟨hne, hdd, hsl, hsub⟩ := rustFileName_spec hfn
    refine ⟨hsl, ?_, ?_, ?_⟩
    · intro hq
      exact qmark_not_mem_base_name url (hsub '?' hq)
    · intro heq
      exact hdd (congrArg String.data heq)
    · intro heq
      exact hne (congrArg String.data heq)

/-- One step of the quote-aware argument tokenizer `split_args` (main.rs lines
409-430): state is (finished args, current arg, inside-quotes flag).  A '"'
toggles the flag and is discarded; whitespace outside quotes flushes a
non-empty current arg; every other character is appended. -/
def split_args_step (st : List String × String × Bool) (c : Char) :
    List String × String × Bool :=
  if c = '"' then (st.1, st.2.1, !st.2.2)
  else if c.isWhitespace && !st.2.2 then
    if st.2.1 ≠ "" then (st.1 ++ [st.2.1], "", st.2.2) else st
  else (st.1, st.2.1.push c, st.2.2)

/-- Embeds `split_args` (main.rs lines 409-430): quote-aware tokenization of
an argument string, emitting any remaining non-empty token at the end. -/
def split_args (input : String) : List String :=
  let fin := input.data.foldl split_args_step ([], "", false)
  if fin.2.1 ≠ "" then fin.1 ++ [fin.2.1] else fin.1

/-- ASCII trim of both ends, modelling Rust's `str::trim` on the ASCII
range. -/
def trimChars (s : List Char) : List Char :=
  ((s.dropWhile Char.isWhitespace).reverse.dropWhile Char.isWhitespace).reverse

/-- Embeds `parse_command_string` (main.rs lines 432-450): trim; if the input
starts with '"', the executable is everything up to the next '"' and the tail
is the remainder after that quote (when no closing quote exists the quoted
branch falls through); otherwise split at the first space, or return the
whole string with an empty tail. -/
def parse_command_string (input : String) : String × String :=
  match trimChars input.data with
  | '"' :: rest =>
    match rest.findIdx? (fun c => c = '"') with
    | some i => (⟨rest.take i⟩, ⟨rest.drop (i + 1)⟩)
    | none =>
      match ('"' :: rest).findIdx? (fun c => c = ' ') with
      | some j => (⟨('"' :: rest).take j⟩, ⟨('"' :: rest).drop (j + 1)⟩)
      | none => (⟨'"' :: rest⟩, "")
  | cs =>
    match cs.findIdx? (fun c => c = ' ') with
    | some j => (⟨cs.take j⟩, ⟨cs.drop (j + 1)⟩)
    | none => (⟨cs⟩, "")

theorem data_push (s : String) (c : Char) : (s.push c).data = s.data ++ [c] := by
  cases s
  rfl

theorem foldl_split_args_inv (cs : List Char) :
    ∀ (args : List String) (cur : String) (q : Bool),
    (∀ t ∈ args, '"' ∉ t.data) → '"' ∉ cur.data →
    (∀ t ∈ (cs.foldl split_args_step (args, cur, q)).1, '"' ∉ t.data) ∧
    '"' ∉ (cs.foldl split_args_step (args, cur, q)).2.1.data := by
  induction cs with
  | nil => exact fun args cur q ha hc => ⟨ha, hc⟩
  | cons c cs ih =>
    intro args cur q ha hc
    rw [List.foldl_cons]
    by_cases h1 : c = '"'
    · have hstep : split_args_step (args, cur, q) c = (args, cur, !q) := by
        simp [split_args_step, h1]
      rw [hstep]
      exact ih args cur (!q) ha hc
    · by_cases h2 : c.isWhitespace && !q
      · by_cases h3 : cur ≠ ""
        · have hstep : split_args_step (args, cur, q) c = (args ++ [cur], "", q) := by
            simp [split_args_step, h1, h2, h3]
          rw [hstep]
          refine ih _ _ _ (fun t ht => ?_) (by simp)
          rcases List.mem_append.mp ht with ht | ht
          · exact ha t ht
          · rw [List.mem_singleton.mp ht]; exact hc
        · have hstep : split_args_step (args, cur, q) c = (args, cur, q) := by
            simp only [split_args_step, if_neg h1, if_pos h2]
            rw [if_neg h3]
          rw [hstep]
          exact ih args cur q ha hc
      · have hstep : split_args_step (args, cur, q) c = (args, cur.push c, q) := by
          simp [split_args_step, h1, h2]
        rw [hstep]
        refine ih _ _ _ ha (fun hmem => ?_)
        rw [data_push] at hmem
        rcases List.mem_append.mp hmem with hmem | hmem
        · exact hc hmem
        · exact h1 (List.mem_singleton.mp hmem).symm

theorem split_args_no_quote_char {input : String} {t : String}
    (ht : t ∈ split_args input) : '"' ∉ t.data := by
  unfold split_args at ht
  have h := foldl_split_args_inv input.data [] "" false (by simp) (by simp)
  by_cases hfin : (input.data.foldl split_args_step ([], "", false)).2.1 ≠ ""
  · rw [if_pos hfin] at ht
    rcases List.mem_append.mp ht with ht | ht
    · exact h.1 t ht
    · rw [List.mem_singleton.mp ht]; exact h.2
  · rw [if_neg hfin] at ht
    exact h.1 t ht

/-- Claim C6 counterexample: on the spec's quoted example the argument tail
produced by `parse_command_string` is " /VERYSILENT" (with the space that
followed the closing quote), not "/VERYSILENT" as the claim states. -/
theorem claim6_counterexample :
    (parse_command_string "\"C:\\Program Files\\App\\unins000.exe\" /VERYSILENT").2 ≠
      "/VERYSILENT" := by decide

/-- Claim C6 (amended): the parser trims, then splits a quoted input into the
executable between the quotes and, as tail, the raw remainder after the
closing quote — including any leading whitespace, so the first example yields
tail " /VERYSILENT" (which still tokenizes to ["/VERYSILENT"]); an unquoted
input splits at the first space with the space itself dropped; the
quote-aware tokenizer discards quote characters (no output token ever
contains one), splits at whitespace only outside quotes, and emits a trailing
token, so `/S "--flag value"` tokenizes to ["/S", "--flag value"]. -/
theorem claim6_amended :
    parse_command_string "\"C:\\Program Files\\App\\unins000.exe\" /VERYSILENT" =
      ("C:\\Program Files\\App\\unins000.exe", " /VERYSILENT") ∧
    split_args " /VERYSILENT" = ["/VERYSILENT"] ∧
    parse_command_string "uninstall.exe /S" = ("uninstall.exe", "/S") ∧
    split_args "/S \"--flag value\"" = ["/S", "--flag value"] ∧
    ∀ input t, t ∈ split_args input → '"' ∉ t.data :=
  ⟨by decide, by decide, by decide, by decide, fun _ _ ht => split_args_no_quote_char ht⟩

/-- Claim C6 witness: the tokenizer facts of the amended claim evaluated at a
concrete input. -/
theorem claim6_witness :
    ("/S" : String) ∈ split_args "/S \"--flag value\"" ∧ '"' ∉ ("/S" : String).data :=
  ⟨by decide, claim6_amended.2.2.2.2 "/S \"--flag value\"" "/S" (by decide)⟩

/-- Claim C5 witness: the general keyword facts evaluated at a concrete
keyword of the spec's example. -/
theorem claim5_witness :
    ("brave" : String) ∈ extract_keywords "BraveBrowserStandaloneSilentNightlySetup" ∧
    (3 ≤ ("brave" : String).length ∧ stop_words.contains "brave" = false) :=
  ⟨by decide, claim5_keyword_extraction.2 "BraveBrowserStandaloneSilentNightlySetup"
    "brave" (by decide)⟩

/-- Whether `p` is an initial segment of `s` (helper for the substring test
of Rust's `str::contains`). -/
def listStarts : List Char → List Char → Bool
  | [], _ => true
  | _ :: _, [] => false
  | p :: ps, c :: cs => p == c && listStarts ps cs

/-- Rust's `str::contains(pat)` on character lists: `pat` occurs contiguously
in `s` (for UTF-8 the byte-substring and character-substring readings
coincide). -/
def listHasSub : List Char → List Char → Bool
  | [], pat => decide (pat = [])
  | c :: rest, pat => listStarts pat (c :: rest) || listHasSub rest pat

/-- One enumerated uninstall registry entry: `DisplayName` (missing values
read as "" via `unwrap_or_default`), and the two optional command values
`QuietUninstallString` and `UninstallString` (main.rs lines 175-203). -/
structure RegEntry where
  display_name : String
  quiet_uninstall_string : Option String
  uninstall_string : Option String

/-- The match score of `find_uninstall_command` (main.rs lines 181-183): how
many of the keywords are substrings of the lowercased display name, counting
each keyword occurrence in the list separately. -/
def match_score (kws : List String) (e : RegEntry) : Nat :=
  (kws.filter (fun kw => listHasSub (strToLower e.display_name).data kw.data)).length

/-- The qualification threshold (main.rs line 186): 2 keywords must match,
or 1 when exactly one keyword was extracted. -/
def min_required (kws : List String) : Nat := if kws.length = 1 then 1 else 2

/-- `match_score >= min_required` (main.rs line 188). -/
def entry_qualifies (kws : List String) (e : RegEntry) : Bool :=
  decide (min_required kws ≤ match_score kws e)

/-- The `is_better` test of the scan (main.rs lines 190-193): a candidate
replaces the best match only when its score is strictly greater. -/
def is_better_than (best : Option (String × Nat)) (score : Nat) : Bool :=
  match best with
  | none => true
  | some (_, prev) => decide (prev < score)

/-- The registry scan of `find_uninstall_command` (main.rs lines 171-210)
over the flattened hive/path enumeration: each qualifying, strictly better
entry contributes its `QuietUninstallString` if readable, else its
`UninstallString`; an entry with neither leaves the best match unchanged. -/
def find_loop (kws : List String) : List RegEntry → Option (String × Nat) → Option (String × Nat)
  | [], best => best
  | e :: rest, best =>
    if entry_qualifies kws e then
      if is_better_than best (match_score kws e) then
        match e.quiet_uninstall_string with
        | some cmd => find_loop kws rest (some (cmd, match_score kws e))
        | none =>
          match e.uninstall_string with
          | some cmd => find_loop kws rest (some (cmd, match_score kws e))
          | none => find_loop kws rest best
      else find_loop kws rest best
    else find_loop kws rest best

/-- Embeds `find_uninstall_command` (main.rs lines 156-213), with the
registry contents supplied as the list of entries in the fixed scan order. -/
def find_uninstall_command (software_name : String) (entries : List RegEntry) : Option String :=
  (find_loop (extract_keywords software_name) entries none).map Prod.fst

/-- Modelled from the spec's resolver contract: the uninstall command of an
entry, preferring the pre-silenced `QuietUninstallString` over the
interactive `UninstallString`. -/
def entry_command (e : RegEntry) : Option String :=
  match e.quiet_uninstall_string with
  | some c => some c
  | none => e.uninstall_string

/-- The command of an entry with "" as a don't-care default. -/
def cmd_of (e : RegEntry) : String := (entry_command e).getD ""

/-- Highest score over a list of entries. -/
def max_score (kws : List String) (q : List RegEntry) : Nat :=
  (q.map (match_score kws)).foldr max 0

/-- The earliest entry attaining the highest score. -/
def first_max (kws : List String) (q : List RegEntry) : Option RegEntry :=
  q.find? (fun e => match_score kws e == max_score kws q)

/-- Modelled from the spec's words for the Uninstall Resolver: among the
qualifying entries in scan order, pick the earliest entry attaining the
highest score and return its uninstall command (quiet preferred); none when
no entry qualifies. -/
def spec_resolve (kws : List String) (entries : List RegEntry) : Option String :=
  (first_max kws (entries.filter (entry_qualifies kws))).bind entry_command

theorem max_score_cons (kws : List String) (e : RegEntry) (q : List RegEntry) :
    max_score kws (e :: q) = max (match_score kws e) (max_score kws q) := rfl

theorem first_max_cons (kws : List String) (e : RegEntry) (q : List RegEntry) :
    first_max kws (e :: q) =
      if max_score kws q ≤ match_score kws e then some e else first_max kws q := by
  by_cases h : max_score kws q ≤ match_score kws e
  · rw [if_pos h]
    unfold first_max
    rw [max_score_cons, Nat.max_eq_left h]
    rw [List.find?_cons_of_pos _ (by simp)]
  · rw [if_neg h]
    push_neg at h
    unfold first_max
    rw [max_score_cons, Nat.max_eq_right (le_of_lt h)]
    rw [List.find?_cons_of_neg _ (by simp [Nat.ne_of_lt h])]

theorem find_loop_cons_qualifies (kws : List String) (e : RegEntry) (rest : List RegEntry)
    (best : Option (String × Nat)) (hq : entry_qualifies kws e = true)
    (hb : is_better_than best (match_score kws e) = true)
    (hcmde : (entry_command e).isSome = true) :
    find_loop kws (e :: rest) best =
      find_loop kws rest (some (cmd_of e, match_score kws e)) := by
  simp only [find_loop, hq, hb, if_true]
  cases hqs : e.quiet_uninstall_string with
  | some cmd => simp [cmd_of, entry_command, hqs]
  | none =>
    cases hus : e.uninstall_string with
    | some cmd => simp [cmd_of, entry_command, hqs, hus]
    | none => exact absurd hcmde (by simp [entry_command, hqs, hus])

theorem find_loop_cons_not_better (kws : List String) (e : RegEntry) (rest : List RegEntry)
    (best : Option (String × Nat)) (hb : is_better_than best (match_score kws e) = false) :
    find_loop kws (e :: rest) best = find_loop kws rest best := by
  simp only [find_loop, hb, Bool.false_eq_true, if_false, ite_self]

theorem find_loop_cons_not_qualifies (kws : List String) (e : RegEntry) (rest : List RegEntry)
    (best : Option (String × Nat)) (hq : entry_qualifies kws e = false) :
    find_loop kws (e :: rest) best = find_loop kws rest best := by
  simp only [find_loop, hq, Bool.false_eq_true, if_false]

theorem find_loop_char (kws : List String) (l : List RegEntry)
    (hcmd : ∀ e ∈ l, (entry_command e).isSome = true) :
    find_loop kws l none =
      (first_max kws (l.filter (entry_qualifies kws))).map
        (fun e => (cmd_of e, match_score kws e)) ∧
    ∀ c s, find_loop kws l (some (c, s)) =
      if max_score kws (l.filter (entry_qualifies kws)) ≤ s then some (c, s)
      else (first_max kws (l.filter (entry_qualifies kws))).map
        (fun e => (cmd_of e, match_score kws e)) := by
  induction l with
  | nil =>
    refine ⟨rfl, fun c s => ?_⟩
    simp [find_loop, max_score, first_max]
  | cons e rest ih =>
    obtain ⟨ih1, ih2⟩ := ih (fun x hx => hcmd x (List.mem_cons_of_mem e hx))
    have hcmde := hcmd e (List.mem_cons_self e rest)
    by_cases hq : entry_qualifies kws e = true
    · have hfilter : (e :: rest).filter (entry_qualifies kws) =
          e :: rest.filter (entry_qualifies kws) := by
        simp [List.filter_cons, hq]
      refine ⟨?_, fun c s => ?_⟩
      · rw [find_loop_cons_qualifies kws e rest none hq rfl hcmde,
          ih2 (cmd_of e) (match_score kws e), hfilter, first_max_cons]
        by_cases hm : max_score kws (rest.filter (entry_qualifies kws)) ≤ match_score kws e
        · rw [if_pos hm, if_pos hm]; rfl
        · rw [if_neg hm, if_neg hm]
      · by_cases hlt : s < match_score kws e
        · have hb : is_better_than (some (c, s)) (match_score kws e) = true := by
            simp [is_better_than, hlt]
          rw [find_loop_cons_qualifies kws e rest (some (c, s)) hq hb hcmde,
            ih2 (cmd_of e) (match_score kws e), hfilter, max_score_cons, first_max_cons]
          have hmax : ¬ (max (match_score kws e)
              (max_score kws (rest.filter (entry_qualifies kws))) ≤ s) := fun hle =>
            Nat.not_lt.mpr (le_trans (Nat.le_max_left _ _) hle) hlt
          rw [if_neg hmax]
          by_cases hm : max_score kws (rest.filter (entry_qualifies kws)) ≤ match_score kws e
          · rw [if_pos hm, if_pos hm]; rfl
          · rw [if_neg hm, if_neg hm]
        · have hle : match_score kws e ≤ s := Nat.le_of_not_lt hlt
          have hb : is_better_than (some (c, s)) (match_score kws e) = false := by
            simp [is_better_than, hlt]
          rw [find_loop_cons_not_better kws e rest (some (c, s)) hb,
            ih2 c s, hfilter, max_score_cons, first_max_cons]
          by_cases hm : max_score kws (rest.filter (entry_qualifies kws)) ≤ s
          · rw [if_pos hm, if_pos (Nat.max_le.mpr ⟨hle, hm⟩)]
          · have hmax : ¬ (max (match_score kws e)
                (max_score kws (rest.filter (entry_qualifies kws))) ≤ s) := fun h2 =>
              hm (le_trans (Nat.le_max_right _ _) h2)
            have hme : ¬ (max_score kws (rest.filter (entry_qualifies kws)) ≤
                match_score kws e) := fun h2 => hm (le_trans h2 hle)
            rw [if_neg hm, if_neg hmax, if_neg hme]
    · have hq' : entry_qualifies kws e = false := Bool.not_eq_true _ ▸ eq_false_of_ne_true hq
      have hfilter : (e :: rest).filter (entry_qualifies kws) =
          rest.filter (entry_qualifies kws) := by
        simp [List.filter_cons, hq']
      refine ⟨?_, fun c s => ?_⟩
      · rw [find_loop_cons_not_qualifies kws e rest none hq', hfilter, ih1]
      · rw [find_loop_cons_not_qualifies kws e rest (some (c, s)) hq', hfilter, ih2 c s]

/-- Claim C4: the registry resolver equals the spec-side selection (earliest
highest-scoring qualifying entry, quiet command preferred), provided every
enumerated entry is uninstall-capable (exposes at least one command value);
it returns none when no entry qualifies, in particular when the keyword list
is empty. -/
theorem claim4_resolver_selection (sw : String) (entries : List RegEntry)
    (hcmd : ∀ e ∈ entries, (entry_command e).isSome = true) :
    find_uninstall_command sw entries = spec_resolve (extract_keywords sw) entries ∧
    ((∀ e ∈ entries, entry_qualifies (extract_keywords sw) e = false) →
      find_uninstall_command sw entries = none) ∧
    (extract_keywords sw = [] → find_uninstall_command sw entries = none) := by
  have hmain : find_uninstall_command sw entries =
      spec_resolve (extract_keywords sw) entries := by
    unfold find_uninstall_command spec_resolve
    rw [(find_loop_char (extract_keywords sw) entries hcmd).1]
    cases hfm : first_max (extract_keywords sw)
        (entries.filter (entry_qualifies (extract_keywords sw))) with
    | none => rfl
    | some b =>
      have hbmem : b ∈ entries.filter (entry_qualifies (extract_keywords sw)) := by
        unfold first_max at hfm
        exact List.mem_of_find?_eq_some hfm
      have hbcmd := hcmd b (List.mem_of_mem_filter hbmem)
      obtain ⟨v, hv⟩ := Option.isSome_iff_exists.mp hbcmd
      simp [cmd_of, hv]
  have hqnone : (∀ e ∈ entries, entry_qualifies (extract_keywords sw) e = false) →
      find_uninstall_command sw entries = none := by
    intro hnone
    rw [hmain]
    unfold spec_resolve
    have hfe : entries.filter (entry_qualifies (extract_keywords sw)) = [] :=
      List.filter_eq_nil_iff.mpr (fun a ha => by simp [hnone a ha])
    rw [hfe]
    rfl
  refine ⟨hmain, hqnone, fun hkw => hqnone (fun e _ => ?_)⟩
  simp [hkw, entry_qualifies, min_required, match_score]

/-- Claim C4 witness: the resolver agrees with the spec-side selection on a
concrete registry where "Brave" scores 1 (rejected), "Brave Browser" scores 2
(selected, quiet command preferred). -/
theorem claim4_witness :
    (∀ e ∈ [RegEntry.mk "Brave" none (some "brave-un.exe"),
        RegEntry.mk "Brave Browser" (some "quiet-un.exe") (some "loud-un.exe")],
      (entry_command e).isSome = true) ∧
    find_uninstall_command "BraveBrowserStandaloneSilentNightlySetup"
        [RegEntry.mk "Brave" none (some "brave-un.exe"),
         RegEntry.mk "Brave Browser" (some "quiet-un.exe") (some "loud-un.exe")] =
      spec_resolve (extract_keywords "BraveBrowserStandaloneSilentNightlySetup")
        [RegEntry.mk "Brave" none (some "brave-un.exe"),
         RegEntry.mk "Brave Browser" (some "quiet-un.exe") (some "loud-un.exe")] :=
  ⟨by decide, (claim4_resolver_selection _ _ (by decide)).1⟩

/-- Claim C10: keyword extraction keeps duplicate words, and the score counts
each list occurrence separately: "zoom-zoom" extracts two keywords, so the
strict threshold of 2 applies, yet the display name "Zoom" reaches score 2
and qualifies and its command is returned; counting distinct keywords only
(the set reading of the score) it would score 1, below that threshold of 2. -/
theorem claim10_occurrence_scoring :
    extract_keywords "zoom-zoom" = ["zoom", "zoom"] ∧
    (extract_keywords "zoom-zoom").length ≠ 1 ∧
    min_required (extract_keywords "zoom-zoom") = 2 ∧
    match_score (extract_keywords "zoom-zoom") (RegEntry.mk "Zoom" none (some "z.exe")) = 2 ∧
    entry_qualifies (extract_keywords "zoom-zoom") (RegEntry.mk "Zoom" none (some "z.exe")) = true ∧
    find_uninstall_command "zoom-zoom" [RegEntry.mk "Zoom" none (some "z.exe")] =
      some "z.exe" ∧
    ((List.dedup (extract_keywords "zoom-zoom")).filter
      (fun kw => listHasSub (strToLower "Zoom").data kw.data)).length = 1 ∧
    ¬ (min_required (extract_keywords "zoom-zoom") ≤
      ((List.dedup (extract_keywords "zoom-zoom")).filter
        (fun kw => listHasSub (strToLower "Zoom").data kw.data)).length) := by decide

/-- A work order (`Task`) as received from the backend (main.rs lines 30-38);
named WorkOrder here since `Task` is taken in Lean. -/
structure WorkOrder where
  id : Int
  task_type : String
  software_name : String
  download_url : String
  silent_args : String

/-- The command resolved by `process_task` before spawning: executable plus
argument vector. -/
structure BuiltCommand where
  command_path : String
  args : List String
deriving DecidableEq

/-- `tmp_dir.path().join(file_name)` (main.rs line 275), with '/' as the
separator of the Linux target. -/
def join_path (dir file : String) : String := dir ++ "/" ++ file

/-- Embeds the command construction of `process_task` (main.rs lines
299-360), after a successful download: the scratch directory and the
registry contents are supplied by the environment; `is_windows` selects the
`cfg(target_os = "windows")` branch.  For uninstall of an ".msi" artifact
the command is `msiexec /x <path> /qn`; for other uninstalls the registry
resolver must succeed, its command string is split into executable and tail,
and caller silent_args tokens are appended when the raw silent_args string
is non-empty; for install, ".msi" maps to `msiexec /i <path> <args>` and
anything else runs the artifact with the parsed silent_args. -/
def build_command (task : WorkOrder) (tmp_dir : String) (entries : List RegEntry)
    (is_windows : Bool) : Except String BuiltCommand :=
  if task.task_type = "uninstall" then
    if strEndsWith (strToLower (sanitized_file_name task.download_url)) ".msi" then
      Except.ok ⟨"msiexec",
        ["/x", join_path tmp_dir (sanitized_file_name task.download_url), "/qn"]⟩
    else if is_windows then
      match find_uninstall_command task.software_name entries with
      | some cmd =>
        Except.ok ⟨(parse_command_string cmd).1,
          if task.silent_args ≠ "" then
            split_args (parse_command_string cmd).2 ++ split_args task.silent_args
          else split_args (parse_command_string cmd).2⟩
      | none =>
        Except.error ("Registry lookup failed for " ++ task.software_name ++
          ". Generic EXE uninstall unavailable.")
    else Except.error "Registry uninstall only supported on Windows"
  else
    if strEndsWith (strToLower (sanitized_file_name task.download_url)) ".msi" then
      Except.ok ⟨"msiexec",
        ["/i", join_path tmp_dir (sanitized_file_name task.download_url)] ++
          split_args task.silent_args⟩
    else
      Except.ok ⟨join_path tmp_dir (sanitized_file_name task.download_url),
        split_args task.silent_args⟩

/-- Rust's `{:?}` rendering of `Option<i32>`, used in the failure message
(main.rs line 373). -/
def fmt_exit_code : Option Int → String
  | some n => "Some(" ++ toString n ++ ")"
  | none => "None"

/-- Embeds the exit-status mapping of `process_task` (main.rs lines 362-384).
The spawn result is supplied by the environment: `Except.ok code` is a child
that ran and exited (`code = some 0` is success, matching
`ExitStatus::success`), `Except.error ()` is a spawn failure.  On spawn
failure with a ".exe" artifact on Linux the outcome is a simulated success;
any other spawn failure is propagated as an error. -/
def exec_outcome (file_name : String) (is_linux : Bool)
    (status : Except Unit (Option Int)) : Except String (String × String) :=
  match status with
  | Except.ok code =>
    if code = some 0 then Except.ok ("success", "Installed successfully")
    else Except.ok ("failed", "Exit Code: " ++ fmt_exit_code code)
  | Except.error _ =>
    if is_linux && strEndsWith (strToLower file_name) ".exe" then
      Except.ok ("success", "Simulated success on Linux")
    else Except.error "spawn failure"

/-- The acknowledgment body (main.rs lines 250-256, 386-393). -/
structure AckRequest where
  task_id : Int
  status : String
  message : String
  mac_address : String
deriving DecidableEq

/-- Observable trace of one `process_task` run: which command (if any) was
handed to `Command::new`, which acknowledgment (if any) was posted, and the
function's own result (an `Except.error` is a task failure that sends no
acknowledgment). -/
structure TaskTrace where
  spawned : Option BuiltCommand
  ack : Option AckRequest
  result : Except String Unit

/-- Embeds the `process_task` pipeline (main.rs lines 258-407): download,
build the command, spawn it, map the exit status, acknowledge.  `download_ok`
is the environment's verdict on the HTTPS fetch; a failed download aborts
before any command exists; a build failure aborts before any spawn; a
propagated spawn failure aborts after the spawn attempt but before the
acknowledgment. -/
def process_task_model (task : WorkOrder) (tmp_dir : String) (entries : List RegEntry)
    (is_windows is_linux : Bool) (download_ok : Bool)
    (status : Except Unit (Option Int)) (mac : String) : TaskTrace :=
  if download_ok = false then ⟨none, none, Except.error "Download failed"⟩
  else
    match build_command task tmp_dir entries is_windows with
    | Except.error e => ⟨none, none, Except.error e⟩
    | Except.ok bc =>
      match exec_outcome (sanitized_file_name task.download_url) is_linux status with
      | Except.error e => ⟨some bc, none, Except.error e⟩
      | Except.ok (st, msg) => ⟨some bc, some ⟨task.id, st, msg, mac⟩, Except.ok ()⟩

/-- Claim C2: an uninstall task for a non-".msi" artifact whose registry
resolution returns none (or running on a platform without the registry)
fails: nothing is spawned — in particular not the downloaded artifact — and
no acknowledgment is sent. -/
theorem claim2_unresolved_uninstall_aborts (task : WorkOrder) (tmp_dir mac : String)
    (entries : List RegEntry) (is_windows is_linux download_ok : Bool)
    (status : Except Unit (Option Int))
    (htype : task.task_type = "uninstall")
    (hmsi : strEndsWith (strToLower (sanitized_file_name task.download_url)) ".msi" = false)
    (hres : find_uninstall_command task.software_name entries = none ∨ is_windows = false) :
    (process_task_model task tmp_dir entries is_windows is_linux download_ok
      status mac).spawned = none ∧
    (process_task_model task tmp_dir entries is_windows is_linux download_ok
      status mac).ack = none ∧
    ∃ e, (process_task_model task tmp_dir entries is_windows is_linux download_ok
      status mac).result = Except.error e := by
  have hbc : ∃ err, build_command task tmp_dir entries is_windows = Except.error err := by
    rcases hres with hres | hres
    · cases hw : is_windows
      · exact ⟨"Registry uninstall only supported on Windows",
          by simp [build_command, htype, hmsi, hw]⟩
      · exact ⟨"Registry lookup failed for " ++ task.software_name ++
            ". Generic EXE uninstall unavailable.",
          by simp [build_command, htype, hmsi, hres, hw]⟩
    · exact ⟨"Registry uninstall only supported on Windows",
        by simp [build_command, htype, hmsi, hres]⟩
  obtain ⟨err, herr⟩ := hbc
  cases hdl : download_ok
  · exact ⟨by simp [process_task_model], by simp [process_task_model],
      "Download failed", by simp [process_task_model]⟩
  · exact ⟨by simp [process_task_model, herr], by simp [process_task_model, herr],
      err, by simp [process_task_model, herr]⟩

/-- Claim C2 witness: concrete uninstall of a ".exe" artifact with an empty
registry on Windows — no spawn, no acknowledgment. -/
theorem claim2_witness :
    find_uninstall_command "Foo" [] = none ∧
    (process_task_model (WorkOrder.mk 1 "uninstall" "Foo" "http://a/b.exe" "") "/tmp"
      [] true false true (Except.ok (some 0)) "mac").spawned = none ∧
    (process_task_model (WorkOrder.mk 1 "uninstall" "Foo" "http://a/b.exe" "") "/tmp"
      [] true false true (Except.ok (some 0)) "mac").ack = none :=
  ⟨by decide,
    (claim2_unresolved_uninstall_aborts _ "/tmp" "mac" [] true false true
      (Except.ok (some 0)) rfl (by decide) (Or.inl (by decide))).1,
    (claim2_unresolved_uninstall_aborts _ "/tmp" "mac" [] true false true
      (Except.ok (some 0)) rfl (by decide) (Or.inl (by decide))).2.1⟩

/-- Claim C3: a sanitized filename ending in ".msi" (case-insensitively)
always routes through msiexec, whatever the software name, registry contents
or platform flag: uninstall builds exactly `msiexec /x <path> /qn` (caller
silent_args ignored), install builds `msiexec /i <path>` followed by the
parsed silent_args tokens in order. -/
theorem claim3_msi_routing (task : WorkOrder) (tmp_dir : String)
    (entries : List RegEntry) (is_windows : Bool)
    (hmsi : strEndsWith (strToLower (sanitized_file_name task.download_url)) ".msi" = true) :
    (task.task_type = "uninstall" →
      build_command task tmp_dir entries is_windows =
        Except.ok ⟨"msiexec",
          ["/x", join_path tmp_dir (sanitized_file_name task.download_url), "/qn"]⟩) ∧
    (task.task_type = "install" →
      build_command task tmp_dir entries is_windows =
        Except.ok ⟨"msiexec",
          ["/i", join_path tmp_dir (sanitized_file_name task.download_url)] ++
            split_args task.silent_args⟩) := by
  constructor
  · intro ht
    simp [build_command, ht, hmsi]
  · intro ht
    simp [build_command, ht, hmsi]

/-- Claim C3 witness: an upper-case ".MSI" artifact routes through msiexec
for both task kinds. -/
theorem claim3_witness :
    strEndsWith (strToLower (sanitized_file_name "http://a/Setup.MSI")) ".msi" = true ∧
    build_command (WorkOrder.mk 1 "uninstall" "Foo" "http://a/Setup.MSI" "/S") "/tmp"
        [] true =
      Except.ok ⟨"msiexec", ["/x", "/tmp/Setup.MSI", "/qn"]⟩ ∧
    build_command (WorkOrder.mk 2 "install" "Foo" "http://a/Setup.MSI" "/S") "/tmp"
        [] true =
      Except.ok ⟨"msiexec", ["/i", "/tmp/Setup.MSI", "/S"]⟩ := by
  refine ⟨by decide, ?_, ?_⟩
  · have h := (claim3_msi_routing (WorkOrder.mk 1 "uninstall" "Foo" "http://a/Setup.MSI" "/S")
      "/tmp" [] true (by decide)).1 rfl
    rw [h]
    rfl
  · have h := (claim3_msi_routing (WorkOrder.mk 2 "install" "Foo" "http://a/Setup.MSI" "/S")
      "/tmp" [] true (by decide)).2 rfl
    rw [h]
    rfl

/-- Claim C7: for an executed task (download succeeded, command built), exit
code zero acknowledges success with "Installed successfully"; a nonzero exit
acknowledges failure with the exit code in the message; a spawn failure for a
".exe" artifact on Linux acknowledges a simulated success; any other spawn
failure propagates as a task failure with no acknowledgment sent. -/
theorem claim7_exit_mapping (task : WorkOrder) (tmp_dir mac : String)
    (entries : List RegEntry) (is_windows is_linux : Bool)
    (status : Except Unit (Option Int)) (bc : BuiltCommand)
    (hbc : build_command task tmp_dir entries is_windows = Except.ok bc) :
    (status = Except.ok (some 0) →
      (process_task_model task tmp_dir entries is_windows is_linux true status mac).ack =
        some ⟨task.id, "success", "Installed successfully", mac⟩ ∧
      (process_task_model task tmp_dir entries is_windows is_linux true status
        mac).result = Except.ok ()) ∧
    (∀ code, status = Except.ok code → code ≠ some 0 →
      (process_task_model task tmp_dir entries is_windows is_linux true status mac).ack =
        some ⟨task.id, "failed", "Exit Code: " ++ fmt_exit_code code, mac⟩) ∧
    (status = Except.error () →
      (is_linux && strEndsWith (strToLower (sanitized_file_name task.download_url))
        ".exe") = true →
      (process_task_model task tmp_dir entries is_windows is_linux true status mac).ack =
        some ⟨task.id, "success", "Simulated success on Linux", mac⟩) ∧
    (status = Except.error () →
      (is_linux && strEndsWith (strToLower (sanitized_file_name task.download_url))
        ".exe") = false →
      (process_task_model task tmp_dir entries is_windows is_linux true status mac).ack =
        none ∧
      (process_task_model task tmp_dir entries is_windows is_linux true status
        mac).spawned = some bc ∧
      (process_task_model task tmp_dir entries is_windows is_linux true status
        mac).result = Except.error "spawn failure") := by
  refine ⟨fun hst => ?_, fun code hst hnz => ?_, fun hst hexe => ?_, fun hst hexe => ?_⟩
  · subst hst
    constructor <;> simp [process_task_model, hbc, exec_outcome]
  · subst hst
    simp [process_task_model, hbc, exec_outcome, hnz]
  · subst hst
    simp [process_task_model, hbc, exec_outcome, hexe]
  · subst hst
    refine ⟨?_, ?_, ?_⟩ <;> simp [process_task_model, hbc, exec_outcome, hexe]

/-- Claim C7 witness: the four outcome cases at concrete inputs (exit 0,
exit 1, spawn failure of a ".exe" on Linux, spawn failure otherwise). -/
theorem claim7_witness :
    (process_task_model (WorkOrder.mk 2 "install" "Foo" "http://a/b.exe" "/S") "/tmp"
      [] true false true (Except.ok (some 0)) "m").ack =
      some ⟨2, "success", "Installed successfully", "m"⟩ ∧
    (process_task_model (WorkOrder.mk 2 "install" "Foo" "http://a/b.exe" "/S") "/tmp"
      [] true false true (Except.ok (some 1)) "m").ack =
      some ⟨2, "failed", "Exit Code: Some(1)", "m"⟩ ∧
    (process_task_model (WorkOrder.mk 2 "install" "Foo" "http://a/b.exe" "/S") "/tmp"
      [] true true true (Except.error ()) "m").ack =
      some ⟨2, "success", "Simulated success on Linux", "m"⟩ ∧
    (process_task_model (WorkOrder.mk 2 "install" "Foo" "http://a/b.exe" "/S") "/tmp"
      [] true false true (Except.error ()) "m").ack = none := by
  have hbc : build_command (WorkOrder.mk 2 "install" "Foo" "http://a/b.exe" "/S") "/tmp"
      [] true = Except.ok ⟨"/tmp/b.exe", ["/S"]⟩ := by rfl
  refine ⟨?_, ?_, ?_, ?_⟩
  · exact ((claim7_exit_mapping _ "/tmp" "m" [] true false _ _ hbc).1 rfl).1
  · have h := (claim7_exit_mapping _ "/tmp" "m" [] true false
      (Except.ok (some 1)) _ hbc).2.1 (some 1) rfl (by decide)
    rw [h]
    rfl
  · exact (claim7_exit_mapping _ "/tmp" "m" [] true true
      (Except.error ()) _ hbc).2.2.1 rfl (by decide)
  · exact ((claim7_exit_mapping _ "/tmp" "m" [] true false
      (Except.error ()) _ hbc).2.2.2 rfl (by decide)).1

/-- A decoded heartbeat response (main.rs lines 40-45). -/
structure PollResp where
  machine_token : Option String
  tasks : List WorkOrder

/-- One poll-loop cycle's effect on the session machine token (main.rs lines
102-131): `none` is a transport failure, a non-success status or an
undecodable body, all of which leave the token unchanged; a decoded response
overwrites the token only when it carries one (main.rs lines 107-112). -/
def step_token (st : Option String) (resp : Option PollResp) : Option String :=
  match resp with
  | none => st
  | some r =>
    match r.machine_token with
    | some t => some t
    | none => st

/-- The token state after a sequence of cycles, starting from `None`
(main.rs line 85). -/
def run_token (responses : List (Option PollResp)) : Option String :=
  responses.foldl step_token none

/-- The tokens actually carried by decoded responses, in cycle order. -/
def received_tokens (responses : List (Option PollResp)) : List String :=
  responses.filterMap (fun r =>
    match r with
    | none => none
    | some resp => resp.machine_token)

/-- Per-cycle header observations: the heartbeat request of a cycle carries
the token state from before the cycle's response is decoded (main.rs lines
94-96), and every acknowledgment sent while processing that cycle's tasks
carries the state after the update (main.rs lines 116-118 and 400-402). -/
def cycle_trace : Option String → List (Option PollResp) → List (Option String × Option String)
  | _, [] => []
  | st, r :: rs => (st, step_token st r) :: cycle_trace (step_token st r) rs

/-- `opt_or a b` is `a` unless it is `none`. -/
def opt_or (a b : Option String) : Option String :=
  match a with
  | some x => some x
  | none => b

theorem foldl_step_token (rs : List (Option PollResp)) :
    ∀ st, rs.foldl step_token st = opt_or (received_tokens rs).getLast? st := by
  induction rs with
  | nil => intro st; rfl
  | cons r rs ih =>
    intro st
    rw [List.foldl_cons, ih (step_token st r)]
    cases hr : r with
    | none => simp [received_tokens, step_token, List.filterMap_cons]
    | some resp =>
      cases ht : resp.machine_token with
      | none => simp [received_tokens, step_token, ht, List.filterMap_cons]
      | some t =>
        simp only [received_tokens, step_token, ht, List.filterMap_cons]
        cases hrt : rs.filterMap (fun r =>
            match r with
            | none => none
            | some resp => resp.machine_token) with
        | nil => rfl
        | cons h l =>
          rw [List.getLast?_cons_cons]
          have : (h :: l).getLast? = some ((h :: l).getLast (by simp)) :=
            List.getLast?_eq_getLast (h :: l) (by simp)
          rw [this]
          rfl

theorem getLast?_append_isSome {α : Type} (a b : List α)
    (ha : a.getLast?.isSome = true) : (a ++ b).getLast?.isSome = true := by
  cases hb : b with
  | nil => simpa using ha
  | cons x xs =>
    rw [List.getLast?_append_of_ne_nil a (by simp)]
    cases hx : xs with
    | nil => simp
    | cons y ys =>
      rw [List.getLast?_eq_getLast (x :: y :: ys) (by simp)]
      rfl

theorem cycle_trace_eq (rs : List (Option PollResp)) :
    ∀ st, cycle_trace st rs = (List.range rs.length).map
      (fun j => ((rs.take j).foldl step_token st, (rs.take (j + 1)).foldl step_token st)) := by
  induction rs with
  | nil => intro st; rfl
  | cons r rs ih =>
    intro st
    rw [show cycle_trace st (r :: rs) =
      (st, step_token st r) :: cycle_trace (step_token st r) rs from rfl]
    rw [ih (step_token st r), List.length_cons, List.range_succ_eq_map, List.map_cons,
      List.map_map]
    congr 1

/-- Claim C8: the session machine token always equals the last token carried
by any decoded response so far (so it is overwritten only by responses that
carry one, a token-free cycle leaves it unchanged, and it is never cleared:
once some at a cycle, it is some at every later cycle); each cycle's
heartbeat request carries the state before that cycle's update and each of
its acknowledgments carries the state after it, i.e. the most recent value. -/
theorem claim8_token_invariant :
    (∀ rs : List (Option PollResp), run_token rs = (received_tokens rs).getLast?) ∧
    (∀ st : Option String, ∀ r : Option PollResp,
      (match r with
       | none => True
       | some resp => resp.machine_token = none) → step_token st r = st) ∧
    (∀ rs : List (Option PollResp), ∀ i j : Nat, i ≤ j →
      (run_token (rs.take i)).isSome = true → (run_token (rs.take j)).isSome = true) ∧
    (∀ rs : List (Option PollResp), cycle_trace none rs = (List.range rs.length).map
      (fun j => (run_token (rs.take j), run_token (rs.take (j + 1))))) := by
  have hA : ∀ rs : List (Option PollResp),
      run_token rs = (received_tokens rs).getLast? := by
    intro rs
    rw [run_token, foldl_step_token rs none]
    cases (received_tokens rs).getLast? <;> rfl
  refine ⟨hA, fun st r hr => ?_, fun rs i j hij hsome => ?_, fun rs => cycle_trace_eq rs none⟩
  · cases r with
    | none => rfl
    | some resp => simp [step_token, hr]
  · rw [hA] at hsome ⊢
    have htake : rs.take j = rs.take i ++ (rs.drop i).take (j - i) := by
      rw [← List.take_add]
      congr 1
      omega
    rw [htake, received_tokens, List.filterMap_append]
    exact getLast?_append_isSome _ _ hsome

/-- Claim C8 witness: a token received in cycle 1 is still present after a
token-free cycle 2. -/
theorem claim8_witness :
    (1 ≤ 2 ∧ (run_token ([some (PollResp.mk (some "tok") []), none].take 1)).isSome = true) ∧
    (run_token ([some (PollResp.mk (some "tok") []), none].take 2)).isSome = true :=
  ⟨⟨by decide, by decide⟩,
    claim8_token_invariant.2.2.1 [some (PollResp.mk (some "tok") []), none] 1 2
      (by decide) (by decide)⟩

/-- One lowercase hex digit, as produced by Rust's `{:02x}` formatting. -/
def hex_digit (n : Nat) : Char :=
  if n < 10 then Char.ofNat (48 + n) else Char.ofNat (87 + n)

/-- Two lowercase hex digits for a byte, Rust's `{:02x}` for values < 256. -/
def hex_pair (n : Nat) : String := ⟨[hex_digit (n / 16), hex_digit (n % 16)]⟩

/-- The six MAC bytes of `derive_pseudo_mac` (main.rs lines 54-60):
`hash.to_be_bytes()[2..8]` are the lower 48 bits of the u64 hash in
big-endian order, and the first byte is forced locally-administered unicast
by `(b | 0x02) & 0xFE`.  The hash value is reduced mod 2^64, the identity on
actual u64 values. -/
def mac_bytes (hash : Nat) : List Nat :=
  [((hash % 2 ^ 64 / 2 ^ 40 % 256) ||| 2) &&& 254,
   hash % 2 ^ 64 / 2 ^ 32 % 256,
   hash % 2 ^ 64 / 2 ^ 24 % 256,
   hash % 2 ^ 64 / 2 ^ 16 % 256,
   hash % 2 ^ 64 / 2 ^ 8 % 256,
   hash % 2 ^ 64 % 256]

/-- Colon-separated concatenation, the shape of the `format!` string
(main.rs lines 62-65). -/
def colon_join : List String → String
  | [] => ""
  | [p] => p
  | p :: ps => p ++ ":" ++ colon_join ps

/-- Embeds `derive_pseudo_mac` (main.rs lines 47-66).  The 64-bit hasher
(`DefaultHasher`, a std library implementation detail) is supplied as a
function parameter; it is a fixed deterministic function of the hashed
string. -/
def derive_pseudo_mac (hasher : String → Nat) (hostname : String) : String :=
  colon_join ((mac_bytes (hasher hostname)).map hex_pair)

/-- A lowercase hexadecimal digit character. -/
def is_lower_hex (c : Char) : Bool :=
  (decide ('0' ≤ c) && decide (c ≤ '9')) || (decide ('a' ≤ c) && decide (c ≤ 'f'))

theorem hex_digit_lower_hex : ∀ n, n < 16 → is_lower_hex (hex_digit n) = true := by decide

theorem hex_pair_ok (n : Nat) (hn : n < 256) :
    (hex_pair n).length = 2 ∧ ∀ c ∈ (hex_pair n).data, is_lower_hex c = true := by
  refine ⟨rfl, fun c hc => ?_⟩
  rcases List.mem_cons.mp hc with h | h
  · exact h ▸ hex_digit_lower_hex _ (by omega)
  · rw [List.mem_singleton.mp h]
    exact hex_digit_lower_hex _ (Nat.mod_lt _ (by norm_num))

theorem byte_lower (x k : Nat) (hk : k + 8 ≤ 48) :
    x % 2 ^ 64 / 2 ^ k % 256 = x % 2 ^ 48 / 2 ^ k % 256 := by
  have h1 : (2 : Nat) ^ k * 256 = 2 ^ (k + 8) := by
    rw [pow_add]
    norm_num
  rw [← Nat.mod_mul_right_div_self, ← Nat.mod_mul_right_div_self, h1,
    Nat.mod_mod_of_dvd x (pow_dvd_pow 2 (by omega : k + 8 ≤ 64)),
    Nat.mod_mod_of_dvd x (pow_dvd_pow 2 hk)]

theorem mac_bytes_lower (x : Nat) : mac_bytes x = mac_bytes (x % 2 ^ 48) := by
  have h48 : x % 2 ^ 48 % 2 ^ 64 = x % 2 ^ 48 :=
    Nat.mod_eq_of_lt (lt_trans (Nat.mod_lt _ (by norm_num)) (by norm_num))
  simp only [mac_bytes, h48]
  rw [byte_lower x 40 (by norm_num), byte_lower x 32 (by norm_num),
    byte_lower x 24 (by norm_num), byte_lower x 16 (by norm_num),
    byte_lower x 8 (by norm_num),
    Nat.mod_mod_of_dvd x (by norm_num : (256 : Nat) ∣ 2 ^ 64),
    Nat.mod_mod_of_dvd x (by norm_num : (256 : Nat) ∣ 2 ^ 48)]

theorem first_byte_bits (a : Nat) :
    ((a ||| 2) &&& 254).testBit 1 = true ∧ ((a ||| 2) &&& 254).testBit 0 = false := by
  constructor
  · rw [Nat.testBit_land, Nat.testBit_lor]
    have h2 : Nat.testBit 2 1 = true := by decide
    have h254 : Nat.testBit 254 1 = true := by decide
    simp [h2, h254]
  · rw [Nat.testBit_land]
    have h254 : Nat.testBit 254 0 = false := by decide
    simp [h254]

/-- Claim C9: the pseudo-MAC is a deterministic function of the hostname, is
six colon-separated lowercase hex pairs, depends only on the lower 48 bits
of the 64-bit hash, and its first byte has bit 1 set and bit 0 clear
(locally-administered unicast). -/
theorem claim9_pseudo_mac :
    (∀ hasher : String → Nat, ∀ h1 h2 : String, h1 = h2 →
      derive_pseudo_mac hasher h1 = derive_pseudo_mac hasher h2) ∧
    (∀ hasher : String → Nat, ∀ hn : String,
      ∃ p0 p1 p2 p3 p4 p5 : String,
        (∀ p ∈ [p0, p1, p2, p3, p4, p5], p.length = 2 ∧
          ∀ c ∈ p.data, is_lower_hex c = true) ∧
        derive_pseudo_mac hasher hn =
          p0 ++ ":" ++ p1 ++ ":" ++ p2 ++ ":" ++ p3 ++ ":" ++ p4 ++ ":" ++ p5) ∧
    (∀ hasher : String → Nat, ∀ hn : String,
      derive_pseudo_mac hasher hn = derive_pseudo_mac (fun s => hasher s % 2 ^ 48) hn) ∧
    (∀ hasher : String → Nat, ∀ hn : String,
      ((mac_bytes (hasher hn)).headD 0).testBit 1 = true ∧
      ((mac_bytes (hasher hn)).headD 0).testBit 0 = false) := by
  refine ⟨fun hasher h1 h2 he => by rw [he], fun hasher hn => ?_, fun hasher hn => ?_,
    fun hasher hn => first_byte_bits _⟩
  · refine ⟨hex_pair (((hasher hn % 2 ^ 64 / 2 ^ 40 % 256) ||| 2) &&& 254),
      hex_pair (hasher hn % 2 ^ 64 / 2 ^ 32 % 256),
      hex_pair (hasher hn % 2 ^ 64 / 2 ^ 24 % 256),
      hex_pair (hasher hn % 2 ^ 64 / 2 ^ 16 % 256),
      hex_pair (hasher hn % 2 ^ 64 / 2 ^ 8 % 256),
      hex_pair (hasher hn % 2 ^ 64 % 256), fun p hp => ?_, rfl⟩
    simp only [List.mem_cons, List.not_mem_nil, or_false] at hp
    rcases hp with h | h | h | h | h | h <;> subst h
    · exact hex_pair_ok _ (lt_of_le_of_lt Nat.and_le_right (by norm_num))
    all_goals exact hex_pair_ok _ (Nat.mod_lt _ (by norm_num))
  · unfold derive_pseudo_mac
    rw [mac_bytes_lower (hasher hn)]

/-- Claim C9 witness: determinism applied at a concrete hasher and
hostname. -/
theorem claim9_witness :
    derive_pseudo_mac (fun _ => 7) "host" = derive_pseudo_mac (fun _ => 7) "host" :=
  claim9_pseudo_mac.1 (fun _ => 7) "host" "host" rfl
